import Mathlib

/-!
Verification of the recurring time-slot scheduler in `scheduler.py`
(class `YouTubeScheduler`): the completion ledger (`upload_tracker.json`),
the non-blocking execution guard (`upload_lock`), the audit CSV log, the
missed-schedule recovery sweep, and the metadata-generation helpers.
All definitions below are shallow embeddings of the corresponding Python
functions; external collaborators (video generation, the YouTube upload
client, the OpenAI completion call) enter as explicit parameters.
-/

namespace CronWorker

/-! ## Data model

A run key is the `f"{today}_{upload_time}"` string used as the key of
`completed_uploads`; since the ISO date has fixed shape, the string is in
bijection with the (date, slot) pair, which we use directly.  Calendar
dates are modelled as integer day numbers. -/

structure RunKey where
  date : Int
  slot : String
deriving DecidableEq, Repr

/-- One value of the `completed_uploads` mapping: the key together with the
date of the completion timestamp that `_mark_upload_completed` stores. -/
structure LedgerEntry where
  key : RunKey
  timestamp : Int
deriving DecidableEq, Repr

/-- The `upload_status` column of the audit CSV; the spec's audit store
admits `success`, `failed` and `skipped`. -/
inductive UploadStatus where
  | success
  | failed
  | skipped
deriving DecidableEq, Repr

/-- One row appended to `exitLog.csv` by `_log_video_details`, restricted to
the columns the verified properties are about (`upload_time_slot` joined
with the current date into the run key, and `upload_status`); the remaining
metadata columns are elided. -/
structure AuditRecord where
  key : RunKey
  status : UploadStatus
deriving DecidableEq, Repr

/-- The key `f"{today}_{upload_time}"` built by `_is_upload_completed_today`
and `_mark_upload_completed`. -/
def uploadKey (today : Int) (slot : String) : RunKey :=
  ⟨today, slot⟩

/-! ## Completion ledger (`upload_tracker.json`)

The durable file is modelled as `Option (List LedgerEntry)`: `some data`
is a readable JSON tracker, `none` is a missing, truncated or otherwise
unparseable file (any state in which `json.load` fails). -/

/-- Embeds `_load_upload_tracker`: returns the stored data, and an empty
tracker when the file cannot be read (the `except` branch returns
`{"completed_uploads": {}, "last_cleanup": None}`). -/
def loadUploadTracker (disk : Option (List LedgerEntry)) : List LedgerEntry :=
  disk.getD []

/-- Embeds `_cleanup_old_entries`: with `cutoff_date = today - timedelta(days=7)`,
every entry whose timestamp date satisfies `entry_date < cutoff_date` is
deleted; the rest are kept.  (The source also drops entries whose timestamp
fails to parse; entries written by `_mark_upload_completed` always carry a
valid ISO timestamp, so well-formed dates model the reachable trackers.) -/
def cleanupOldEntries (today : Int) (entries : List LedgerEntry) : List LedgerEntry :=
  entries.filter (fun e => decide (today - 7 ≤ e.timestamp))

/-- Embeds `_is_upload_completed_today`: load the tracker, prune the
in-memory copy, and test membership of today's key in the pruned copy.
The durable file is returned unchanged — the pruned copy is never saved. -/
def isUploadCompletedToday (disk : Option (List LedgerEntry)) (today : Int)
    (slot : String) : Bool × Option (List LedgerEntry) :=
  let data := loadUploadTracker disk
  let pruned := cleanupOldEntries today data
  (decide (uploadKey today slot ∈ pruned.map LedgerEntry.key), disk)

/-! ## The save protocol of `_save_upload_tracker`

`_save_upload_tracker` executes `open(self.upload_tracker_file, "w")`
followed by `json.dump(tracker_data, f)`: the durable file is first
truncated in place and then rewritten.  We model the two observable file
operations explicitly so that crash states (any prefix of the operation
list) can be examined. -/

inductive FileOp where
  /-- `open(path, "w")`: truncates the durable file to empty (unparseable JSON). -/
  | truncateTracker
  /-- `json.dump(...)`: writes the full serialized tracker data. -/
  | writeTracker (data : List LedgerEntry)
deriving DecidableEq, Repr

/-- The operation sequence performed by `_save_upload_tracker` on the
durable store: an in-place truncate, then the write.  No temporary file
and no atomic rename appear in the source. -/
def saveUploadTrackerOps (data : List LedgerEntry) : List FileOp :=
  [FileOp.truncateTracker, FileOp.writeTracker data]

def applyFileOp (disk : Option (List LedgerEntry)) : FileOp → Option (List LedgerEntry)
  | FileOp.truncateTracker => none
  | FileOp.writeTracker data => some data

def applyFileOps (disk : Option (List LedgerEntry)) (ops : List FileOp) :
    Option (List LedgerEntry) :=
  ops.foldl applyFileOp disk

/-- Embeds `_mark_upload_completed`: load the tracker fresh (no pruning),
bind today's key to a record carrying the completion timestamp (a plain
dict assignment, overwriting any previous binding of the same key), then
run the save protocol. -/
def markUploadCompleted (disk : Option (List LedgerEntry)) (today : Int)
    (slot : String) : Option (List LedgerEntry) :=
  let data := loadUploadTracker disk
  let k := uploadKey today slot
  applyFileOps disk (saveUploadTrackerOps
    (⟨k, today⟩ :: data.filter (fun e => decide (e.key ≠ k))))

/-- Embeds `_initialize_upload_tracker`: writes an empty tracker only when
the file does not exist. -/
def ensureUploadTracker (disk : Option (List LedgerEntry)) :
    Option (List LedgerEntry) :=
  match disk with
  | none => some []
  | some data => some data

/-- The key set of the durable tracker as read back by `_load_upload_tracker`. -/
def trackerKeys (disk : Option (List LedgerEntry)) : List RunKey :=
  (loadUploadTracker disk).map LedgerEntry.key

/-- The operations of `scheduler.py` that touch the durable tracker file:
initialization, the completion check, and the completion mark. -/
inductive TrackerOp where
  | initTracker
  | checkCompleted (today : Int) (slot : String)
  | markCompleted (today : Int) (slot : String)
deriving DecidableEq, Repr

def applyTrackerOp (disk : Option (List LedgerEntry)) : TrackerOp → Option (List LedgerEntry)
  | TrackerOp.initTracker => ensureUploadTracker disk
  | TrackerOp.checkCompleted today slot => (isUploadCompletedToday disk today slot).2
  | TrackerOp.markCompleted today slot => markUploadCompleted disk today slot

def applyTrackerOps (disk : Option (List LedgerEntry)) (ops : List TrackerOp) :
    Option (List LedgerEntry) :=
  ops.foldl applyTrackerOp disk

/-! ## Video descriptions (`create_video_description`) -/

/-- The hashtag block shared by every description. -/
def base_hashtags : String :=
  "#Breathe-In #Productivity #DigitalDetox #Motivation #SelfImprovement #Focus #Success #Mindfulness #BreakTheScroll #shorts #trending #viral #business #creator #youtuber #youtubeshorts"

/-- The slot-specific description dictionary literal of `create_video_description`,
keyed by upload time. -/
def descriptions : List (String × String) :=
  [("07:00", "Start your day right! This morning motivation will help you focus on building success habits, not scrolling mindlessly!\n\n" ++ base_hashtags ++ " #MorningMotivation"),
   ("12:00", "Midday reality check! While you\x27re scrolling, others are building their dreams. Time to refocus and make every moment count.\n\n" ++ base_hashtags ++ " #MiddayMotivation"),
   ("19:30", "Evening wake-up call! Don\x27t let another day slip away in endless scrolling. Your future self will thank you for the time you invest wisely.\n\n" ++ base_hashtags ++ " #EveningMotivation")]

/-- The default argument of the `descriptions.get(upload_time, ...)` call. -/
def genericDescription : String :=
  "Focus on building success habits, not scrolling mindlessly! \n\n" ++ base_hashtags

/-- Embeds `create_video_description`: dictionary lookup with the generic
default. -/
def create_video_description (upload_time : String) : String :=
  match descriptions.lookup upload_time with
  | some d => d
  | none => genericDescription

/-- The upload slots configured in `YouTubeScheduler.__init__`:
`self.upload_times = ["07:30", "12:29", "19:00"]`. -/
def upload_times : List String :=
  ["07:30", "12:29", "19:00"]

/-! ## Video titles (`create_video_title`)

The external completion call (`openai_client.chat.completions.create` plus
the subsequent usage tracking) is the `ai` parameter: `ok text` carries the
raw message content of a reply, `failed msg` is any exception raised by the
call.  `random.choice` over the fallback list is supplied as an index draw. -/

inductive AIOutcome where
  /-- the completion call returned, with this message content -/
  | ok (text : String)
  /-- the completion call (or the usage tracking that follows it) raised -/
  | failed (msg : String)
deriving DecidableEq, Repr

/-- The static fallback title list of `create_video_title`. -/
def fallback_titles : List (String × String) :=
  [("Success Habits!", "Be the one ✅"),
   ("Achieve More!", "Be the one ✅"),
   ("Win Today!", "Achieve ✅"),
   ("Success Mindset!", "Be the one ✅"),
   ("Level Up!", "Achieve ✅")]

/-- `random.choice(fallback_titles)` joined by the f-string
`f"{fallback[0]}\n{fallback[1]}"`, with the random draw given as an index. -/
def fallbackTitle (randIdx : Nat) : String :=
  let fallback := fallback_titles.getD (randIdx % fallback_titles.length)
    ("Success Habits!", "Be the one ✅")
  fallback.1 ++ "\n" ++ fallback.2

/-- The per-line clean-up of `create_video_title`:
`line.strip()` then `.replace('"', '').replace("'", "")`. -/
def cleanTitleLine (line : String) : String :=
  (line.trim.replace "\x22" "").replace "\x27" ""

/-- Embeds `create_video_title`: strip the reply, split on newlines, clean
the first two lines, return them joined when both are non-empty, and fall
back to a static title on a failed call or an unusable reply.  (The Python
guard `"\n" in response_text` together with `len(lines) >= 2` is exactly
`2 ≤ lines.length` for `lines = response_text.split("\n")`.) -/
def create_video_title (upload_time : String) (ai : AIOutcome) (randIdx : Nat) : String :=
  match ai with
  | AIOutcome.failed _ => fallbackTitle randIdx
  | AIOutcome.ok text =>
    let response_text := text.trim
    let lines := response_text.splitOn "\n"
    if 2 ≤ lines.length then
      let line1 := cleanTitleLine (lines.getD 0 "")
      let line2 := cleanTitleLine (lines.getD 1 "")
      if 0 < line1.length ∧ 0 < line2.length then
        line1 ++ "\n" ++ line2
      else
        fallbackTitle randIdx
    else
      fallbackTitle randIdx

/-- A title consisting of two non-empty lines. -/
def TwoLineTitle (s : String) : Prop :=
  ∃ a b : String, s = a ++ "\n" ++ b ∧ a ≠ "" ∧ b ≠ ""

/-! ## The missed-schedule sweep (`_check_missed_schedules`)

The sweep runs once, single-threaded, before the polling loop starts, so
the lock is free and each `generate_and_upload_video` call it makes runs
to completion before the next.  The external pipeline outcome (video
generation and upload succeeding) is the `outcome` oracle. -/

/-- Decimal digit-string parsing, the `int(...)` of the source on the
digit strings produced by splitting a well-formed "HH:MM" slot. -/
def parseNat (cs : List Char) : Nat :=
  cs.foldl (fun acc c => acc * 10 + (c.toNat - 48)) 0

/-- `upload_time.split(":")` on the character list: the part before the
first colon and the part after it. -/
def splitColon : List Char → List Char × List Char
  | [] => ([], [])
  | c :: rest =>
    if c = ':' then ([], rest)
    else
      let r := splitColon rest
      (c :: r.1, r.2)

/-- `map(int, upload_time.split(":"))` folded into minutes,
`upload_hour * 60 + upload_minute`. -/
def slotMinutes (upload_time : String) : Nat :=
  let p := splitColon upload_time.data
  parseNat p.1 * 60 + parseNat p.2

/-- One single-threaded call of `generate_and_upload_video` with the lock
free: the ledger check, then (when not completed) the pipeline, which on
success marks the ledger.  Returns whether the pipeline ran, and the
resulting durable tracker. -/
def dispatchOnce (today : Int) (slot : String) (succeeds : Bool)
    (disk : Option (List LedgerEntry)) : Bool × Option (List LedgerEntry) :=
  if (isUploadCompletedToday disk today slot).1 then
    (false, disk)
  else if succeeds then
    (true, markUploadCompleted disk today slot)
  else
    (true, disk)

/-- The `for upload_time in self.upload_times` loop of
`_check_missed_schedules`: a slot is dispatched when
`upload_minutes < current_minutes <= upload_minutes + 30`. -/
def missedSweepGo (current_minutes : Nat) (today : Int) (outcome : String → Bool) :
    List String → Option (List LedgerEntry) → List String × Option (List LedgerEntry)
  | [], disk => ([], disk)
  | upload_time :: rest, disk =>
    let upload_minutes := slotMinutes upload_time
    if upload_minutes < current_minutes ∧ current_minutes ≤ upload_minutes + 30 then
      let r := dispatchOnce today upload_time (outcome upload_time) disk
      let restResult := missedSweepGo current_minutes today outcome rest r.2
      ((if r.1 then [upload_time] else []) ++ restResult.1, restResult.2)
    else
      missedSweepGo current_minutes today outcome rest disk

/-- Embeds `_check_missed_schedules`.  The source reads the current time
with full precision but compares only `current_hour * 60 + current_minute`;
the seconds component is accepted here to show it is discarded.  Returns
the slots for which the pipeline actually ran, and the final tracker. -/
def checkMissedSchedules (nowHour nowMinute nowSecond : Nat) (today : Int)
    (slots : List String) (outcome : String → Bool)
    (disk : Option (List LedgerEntry)) : List String × Option (List LedgerEntry) :=
  missedSweepGo (nowHour * 60 + nowMinute) today outcome slots disk

/-! ## Interleaved dispatches of `generate_and_upload_video`

Dispatches can overlap: the scheduler thread polls `schedule.run_pending()`
while `test_trigger_now` (reachable from `main_app.py test-scheduler` and
the debug tools) dispatches from another thread.  `generate_and_upload_video`
performs, in program order: the ledger check (before taking the lock), the
non-blocking `upload_lock.acquire(blocking=False)`, and — holding the
lock — `_perform_upload`, whose success path marks the ledger and whose
`finally` blocks write the audit row and release the lock.

Each atomic event below is one of those three source regions.  The whole
of `_perform_upload` plus the `finally: upload_lock.release()` is a single
event: the lock guarantees no second dispatch is inside it, and a
concurrent ledger check can still be ordered before or after it. -/

inductive Phase where
  /-- about to run the `_is_upload_completed_today` check -/
  | ready
  /-- check passed, about to run `upload_lock.acquire(blocking=False)` -/
  | toAcquire
  /-- lock held, about to run `_perform_upload` and the `finally` release -/
  | running
  /-- returned from `generate_and_upload_video` -/
  | finished
deriving DecidableEq, Repr

/-- Outcome of one `_perform_upload` entry, as determined by the external
collaborators. -/
inductive PipelineOutcome where
  /-- generation, upload and everything after succeed -/
  | success
  /-- `generate_video()` returns without raising but leaves no artifact:
  the early returns at the missing output directory or the missing video
  file (scheduler.py lines 345-360; reachable, since `app.py`'s
  `generate_video` returns early on missing assets before creating
  `outputVideos`) -/
  | missingArtifact
  /-- some pipeline step raises and the `except` at the end of
  `_perform_upload` catches it -/
  | failure
deriving DecidableEq, Repr

/-- One in-flight call of `generate_and_upload_video`: its slot argument,
how the external pipeline (generation, upload) will behave if entered, and
its progress through the function. -/
structure DispatchThread where
  slot : String
  outcome : PipelineOutcome
  phase : Phase
deriving DecidableEq, Repr

def defaultThread : DispatchThread :=
  ⟨"", PipelineOutcome.failure, Phase.ready⟩

/-- Shared state: the calendar date, the durable tracker file, the holder
of `upload_lock`, the rows of `exitLog.csv`, and the dispatch calls. -/
structure SchedState where
  today : Int
  tracker : Option (List LedgerEntry)
  lockHolder : Option Nat
  records : List AuditRecord
  threads : List DispatchThread
deriving DecidableEq, Repr

inductive Event where
  /-- thread `tid` executes the `_is_upload_completed_today` check -/
  | checkLedger (tid : Nat)
  /-- thread `tid` executes `upload_lock.acquire(blocking=False)` -/
  | tryAcquire (tid : Nat)
  /-- thread `tid` executes `_perform_upload` and the `finally` release -/
  | runPipeline (tid : Nat)
deriving DecidableEq, Repr

def setThread (s : SchedState) (tid : Nat) (t : DispatchThread) : SchedState :=
  { s with threads := s.threads.set tid t }

/-- One atomic step of the interleaving semantics; `none` when the event is
not enabled.  `checkLedger`: a completed key returns from the function with
no audit row, otherwise the thread proceeds to the lock.  `tryAcquire`: a
free lock is taken, a held lock makes the call return immediately with no
audit row.  `runPipeline`: on pipeline success the ledger is marked and the
`finally` at scheduler.py:427-429 appends one `success` row; on the
missing-artifact early returns (lines 345-360) the row is written at the
early return and the same `finally` writes it again — two identical
`failed` rows; on a caught exception the `finally` appends one `failed`
row.  The outer `finally` releases the lock in every case. -/
def step (s : SchedState) : Event → Option SchedState
  | Event.checkLedger tid =>
    match s.threads[tid]? with
    | none => none
    | some t =>
      if t.phase = Phase.ready then
        if (isUploadCompletedToday s.tracker s.today t.slot).1 then
          some (setThread s tid { t with phase := Phase.finished })
        else
          some (setThread s tid { t with phase := Phase.toAcquire })
      else none
  | Event.tryAcquire tid =>
    match s.threads[tid]? with
    | none => none
    | some t =>
      if t.phase = Phase.toAcquire then
        match s.lockHolder with
        | none =>
          some { setThread s tid { t with phase := Phase.running } with
                 lockHolder := some tid }
        | some _ =>
          some (setThread s tid { t with phase := Phase.finished })
      else none
  | Event.runPipeline tid =>
    match s.threads[tid]? with
    | none => none
    | some t =>
      if t.phase = Phase.running ∧ s.lockHolder = some tid then
        match t.outcome with
        | PipelineOutcome.success =>
          some { setThread s tid { t with phase := Phase.finished } with
                 tracker := markUploadCompleted s.tracker s.today t.slot,
                 records := s.records ++ [⟨uploadKey s.today t.slot, UploadStatus.success⟩],
                 lockHolder := none }
        | PipelineOutcome.missingArtifact =>
          some { setThread s tid { t with phase := Phase.finished } with
                 records := s.records
                   ++ [⟨uploadKey s.today t.slot, UploadStatus.failed⟩,
                       ⟨uploadKey s.today t.slot, UploadStatus.failed⟩],
                 lockHolder := none }
        | PipelineOutcome.failure =>
          some { setThread s tid { t with phase := Phase.finished } with
                 records := s.records ++ [⟨uploadKey s.today t.slot, UploadStatus.failed⟩],
                 lockHolder := none }
      else none

/-- Run a sequence of interleaved events. -/
def exec (s : SchedState) : List Event → Option SchedState
  | [] => some s
  | e :: es =>
    match step s e with
    | some s2 => exec s2 es
    | none => none

/-- Initial state: every dispatch call is at the top of
`generate_and_upload_video`, the lock is free, no audit rows yet. -/
def initState (today : Int) (tracker : Option (List LedgerEntry))
    (specs : List (String × PipelineOutcome)) : SchedState :=
  { today := today
    tracker := tracker
    lockHolder := none
    records := []
    threads := specs.map (fun p => ⟨p.1, p.2, Phase.ready⟩) }

/-- Number of audit rows with status `success` for a given run key. -/
def successCount (records : List AuditRecord) (k : RunKey) : Nat :=
  (records.filter (fun r => decide (r.key = k ∧ r.status = UploadStatus.success))).length

/-- Number of audit rows one pipeline entry writes: one for a successful
run and one for a caught exception (the `finally` row), but two for the
missing-artifact early returns, which write the row at the return and then
again in the `finally`. -/
def outcomeRows : PipelineOutcome → Nat
  | PipelineOutcome.success => 1
  | PipelineOutcome.missingArtifact => 2
  | PipelineOutcome.failure => 1

/-- Audit rows contributed by one event of a trace, given the slot and
outcome fields of the dispatch threads (which no step ever changes): zero
for the ledger check and the lock acquire, `outcomeRows` for a pipeline
entry. -/
def dispatchRowCount (threads : List DispatchThread) : Event → Nat
  | Event.runPipeline tid => outcomeRows (threads.getD tid defaultThread).outcome
  | _ => 0

/-! ## Helper lemmas -/

lemma getD_set_self (l : List DispatchThread) (i : Nat) (a : DispatchThread)
    (h : i < l.length) : (l.set i a).getD i defaultThread = a := by
  simp [List.getD_eq_getElem?_getD, List.getElem?_set_self, h]

lemma getD_set_ne (l : List DispatchThread) (i j : Nat) (a : DispatchThread)
    (hne : i ≠ j) : (l.set i a).getD j defaultThread = l.getD j defaultThread := by
  simp [List.getD_eq_getElem?_getD, List.getElem?_set_ne hne]

lemma getD_of_getElem? (l : List DispatchThread) (i : Nat) (t : DispatchThread)
    (h : l[i]? = some t) : i < l.length ∧ l.getD i defaultThread = t := by
  obtain ⟨hl, he⟩ := List.getElem?_eq_some.mp h
  exact ⟨hl, by simp [List.getD_eq_getElem?_getD, h]⟩

lemma getElem?_of_getD (l : List DispatchThread) (i : Nat) (h : i < l.length) :
    l[i]? = some (l.getD i defaultThread) := by
  rw [List.getElem?_eq_getElem h]
  simp [List.getD_eq_getElem?_getD, List.getElem?_eq_getElem h]

lemma string_ne_empty_of_pos (s : String) (h : 0 < s.length) : s ≠ "" := by
  intro hs
  rw [hs] at h
  simp at h

lemma static_after_setThread (s : SchedState) (tid : Nat) (t t2 : DispatchThread)
    (hg : s.threads[tid]? = some t) (hslot : t2.slot = t.slot)
    (hout : t2.outcome = t.outcome) :
    ∀ i : Nat,
      (((s.threads.set tid t2).getD i defaultThread).slot,
        ((s.threads.set tid t2).getD i defaultThread).outcome)
        = ((s.threads.getD i defaultThread).slot,
            (s.threads.getD i defaultThread).outcome) := by
  intro i
  obtain ⟨htid, hgd⟩ := getD_of_getElem? _ _ _ hg
  by_cases hit : i = tid
  · subst hit
    rw [getD_set_self _ _ _ htid, hgd, hslot, hout]
  · rw [getD_set_ne _ _ _ _ (fun hx => hit hx.symm)]

/-- Every step of the interleaving semantics appends audit rows exactly as
the source paths do: none for the ledger check or the lock acquire,
`outcomeRows` many for a pipeline entry (one on success or a caught
exception, two identical failed rows on the missing-artifact early
returns); every appended row has status success or failed, never skipped;
and no step changes the slot or outcome of any thread, nor the thread
count. -/
lemma step_records_and_static (s : SchedState) (e : Event) (s2 : SchedState)
    (h : step s e = some s2) :
    s2.records.length = s.records.length + dispatchRowCount s.threads e
      ∧ s2.threads.length = s.threads.length
      ∧ (∀ i : Nat, ((s2.threads.getD i defaultThread).slot,
            (s2.threads.getD i defaultThread).outcome)
          = ((s.threads.getD i defaultThread).slot,
            (s.threads.getD i defaultThread).outcome))
      ∧ ∀ r ∈ s2.records, r ∈ s.records ∨ r.status ≠ UploadStatus.skipped := by
  cases e with
  | checkLedger tid =>
    cases hg : s.threads[tid]? with
    | none => simp [step, hg] at h
    | some t =>
      by_cases hp : t.phase = Phase.ready
      · by_cases hc : (isUploadCompletedToday s.tracker s.today t.slot).1 <;>
          (simp [step, hg, hp, hc] at h; rw [← h]) <;>
          exact ⟨by simp [setThread, dispatchRowCount], by simp [setThread],
            static_after_setThread s tid t _ hg rfl rfl, fun r hr => Or.inl hr⟩
      · simp [step, hg, hp] at h
  | tryAcquire tid =>
    cases hg : s.threads[tid]? with
    | none => simp [step, hg] at h
    | some t =>
      by_cases hp : t.phase = Phase.toAcquire
      · cases hl : s.lockHolder with
        | none =>
          simp [step, hg, hp, hl] at h
          rw [← h]
          exact ⟨by simp [setThread, dispatchRowCount], by simp [setThread],
            static_after_setThread s tid t _ hg rfl rfl, fun r hr => Or.inl hr⟩
        | some j =>
          simp [step, hg, hp, hl] at h
          rw [← h]
          exact ⟨by simp [setThread, dispatchRowCount], by simp [setThread],
            static_after_setThread s tid t _ hg rfl rfl, fun r hr => Or.inl hr⟩
      · simp [step, hg, hp] at h
  | runPipeline tid =>
    cases hg : s.threads[tid]? with
    | none => simp [step, hg] at h
    | some t =>
      obtain ⟨htid, hgd⟩ := getD_of_getElem? _ _ _ hg
      by_cases hc : t.phase = Phase.running ∧ s.lockHolder = some tid
      · have hrows : dispatchRowCount s.threads (Event.runPipeline tid)
            = outcomeRows t.outcome := by
          simp [dispatchRowCount, hg]
        cases ho : t.outcome with
        | success =>
          simp [step, hg, hc, ho] at h
          rw [← h]
          refine ⟨by simp [setThread, hrows, ho, outcomeRows], by simp [setThread],
            static_after_setThread s tid t _ hg rfl ho.symm, ?_⟩
          intro r hr
          simp only [setThread] at hr
          rcases List.mem_append.mp hr with hrl | hrr
          · exact Or.inl hrl
          · refine Or.inr ?_
            fin_cases hrr
            simp
        | missingArtifact =>
          simp [step, hg, hc, ho] at h
          rw [← h]
          refine ⟨by simp [setThread, hrows, ho, outcomeRows], by simp [setThread],
            static_after_setThread s tid t _ hg rfl ho.symm, ?_⟩
          intro r hr
          simp only [setThread] at hr
          rcases List.mem_append.mp hr with hrl | hrr
          · exact Or.inl hrl
          · refine Or.inr ?_
            fin_cases hrr <;> simp
        | failure =>
          simp [step, hg, hc, ho] at h
          rw [← h]
          refine ⟨by simp [setThread, hrows, ho, outcomeRows], by simp [setThread],
            static_after_setThread s tid t _ hg rfl ho.symm, ?_⟩
          intro r hr
          simp only [setThread] at hr
          rcases List.mem_append.mp hr with hrl | hrr
          · exact Or.inl hrl
          · refine Or.inr ?_
            fin_cases hrr
            simp
      · simp [step, hg, hc] at h

/-- The lock invariant: the holder index is in range, and a thread is in
the protected section exactly when it is the holder. -/
def lockInv (s : SchedState) : Prop :=
  (∀ i : Nat, s.lockHolder = some i → i < s.threads.length)
    ∧ ∀ i : Nat, i < s.threads.length →
        ((s.threads.getD i defaultThread).phase = Phase.running ↔ s.lockHolder = some i)

lemma lockInv_set_nonrunning (s : SchedState) (tid : Nat) (t2 : DispatchThread)
    (htid : tid < s.threads.length) (hnr : t2.phase ≠ Phase.running)
    (hnl : s.lockHolder ≠ some tid) (hinv : lockInv s) :
    lockInv (setThread s tid t2) := by
  obtain ⟨hrange, hiff⟩ := hinv
  constructor
  · intro i hi
    simp only [setThread, List.length_set]
    exact hrange i hi
  · intro i hi
    simp only [setThread, List.length_set] at hi
    simp only [setThread]
    by_cases hit : i = tid
    · subst hit
      rw [getD_set_self _ _ _ htid]
      constructor
      · intro hr; exact absurd hr hnr
      · intro hl; exact absurd hl hnl
    · rw [getD_set_ne _ _ _ _ (fun hx => hit hx.symm)]
      exact hiff i hi

lemma lockInv_acquire (s : SchedState) (tid : Nat) (t2 : DispatchThread)
    (htid : tid < s.threads.length) (hrun : t2.phase = Phase.running)
    (hnone : s.lockHolder = none) (hinv : lockInv s) :
    lockInv { setThread s tid t2 with lockHolder := some tid } := by
  obtain ⟨hrange, hiff⟩ := hinv
  constructor
  · intro i hi
    simp only [setThread, List.length_set]
    simp only [Option.some.injEq] at hi
    exact hi ▸ htid
  · intro i hi
    simp only [setThread, List.length_set] at hi
    simp only [setThread]
    by_cases hit : i = tid
    · subst hit
      rw [getD_set_self _ _ _ htid]
      simp [hrun]
    · rw [getD_set_ne _ _ _ _ (fun hx => hit hx.symm)]
      have hfalse := hiff i hi
      rw [hnone] at hfalse
      rw [hfalse]
      constructor
      · intro hx; cases hx
      · intro hx
        injection hx with hx2
        exact absurd hx2.symm hit

lemma lockInv_release (s : SchedState) (tid : Nat) (t2 : DispatchThread)
    (htid : tid < s.threads.length) (hnr : t2.phase ≠ Phase.running)
    (hheld : s.lockHolder = some tid) (hinv : lockInv s)
    (tracker2 : Option (List LedgerEntry)) (records2 : List AuditRecord) :
    lockInv { setThread s tid t2 with
              lockHolder := none, tracker := tracker2, records := records2 } := by
  obtain ⟨hrange, hiff⟩ := hinv
  constructor
  · intro i hi; cases hi
  · intro i hi
    simp only [setThread, List.length_set] at hi
    simp only [setThread]
    by_cases hit : i = tid
    · subst hit
      rw [getD_set_self _ _ _ htid]
      simp [hnr]
    · rw [getD_set_ne _ _ _ _ (fun hx => hit hx.symm)]
      have hprev := hiff i hi
      rw [hheld] at hprev
      rw [hprev]
      constructor
      · intro hx
        injection hx with hx2
        exact absurd hx2.symm hit
      · intro hx; cases hx

lemma lockInv_init (today : Int) (tracker : Option (List LedgerEntry))
    (specs : List (String × PipelineOutcome)) : lockInv (initState today tracker specs) := by
  constructor
  · intro i hi
    simp [initState] at hi
  · intro i hi
    simp only [initState, List.length_map] at hi
    have hph : ((initState today tracker specs).threads.getD i defaultThread).phase
        = Phase.ready := by
      simp only [initState]
      rw [List.getD_eq_getElem?_getD, List.getElem?_map,
        List.getElem?_eq_getElem hi]
      simp
    rw [hph]
    simp [initState]

lemma lockInv_step (s : SchedState) (e : Event) (s2 : SchedState)
    (h : step s e = some s2) (hinv : lockInv s) : lockInv s2 := by
  cases e with
  | checkLedger tid =>
    cases hg : s.threads[tid]? with
    | none => simp [step, hg] at h
    | some t =>
      obtain ⟨htid, hgd⟩ := getD_of_getElem? _ _ _ hg
      by_cases hp : t.phase = Phase.ready
      · have hnl : s.lockHolder ≠ some tid := by
          intro hl
          have hrun := (hinv.2 tid htid).mpr hl
          rw [hgd, hp] at hrun
          cases hrun
        by_cases hc : (isUploadCompletedToday s.tracker s.today t.slot).1 <;>
          (simp [step, hg, hp, hc] at h; rw [← h]) <;>
          exact lockInv_set_nonrunning s tid _ htid (by simp) hnl hinv
      · simp [step, hg, hp] at h
  | tryAcquire tid =>
    cases hg : s.threads[tid]? with
    | none => simp [step, hg] at h
    | some t =>
      obtain ⟨htid, hgd⟩ := getD_of_getElem? _ _ _ hg
      by_cases hp : t.phase = Phase.toAcquire
      · cases hl : s.lockHolder with
        | none =>
          simp [step, hg, hp, hl] at h
          rw [← h]
          exact lockInv_acquire s tid _ htid (by simp) hl hinv
        | some j =>
          have hnl : s.lockHolder ≠ some tid := by
            intro hx
            have hrun := (hinv.2 tid htid).mpr hx
            rw [hgd, hp] at hrun
            cases hrun
          simp [step, hg, hp, hl] at h
          rw [← h]
          exact lockInv_set_nonrunning s tid _ htid (by simp) hnl hinv
      · simp [step, hg, hp] at h
  | runPipeline tid =>
    cases hg : s.threads[tid]? with
    | none => simp [step, hg] at h
    | some t =>
      obtain ⟨htid, hgd⟩ := getD_of_getElem? _ _ _ hg
      by_cases hc : t.phase = Phase.running ∧ s.lockHolder = some tid
      · cases ho : t.outcome <;>
          (simp [step, hg, hc, ho] at h; rw [← h]) <;>
          exact lockInv_release s tid _ htid (by simp) hc.2 hinv _ _
      · simp [step, hg, hc] at h

lemma lockInv_exec (s0 : SchedState) (tr : List Event) (s : SchedState)
    (h : exec s0 tr = some s) (hinv : lockInv s0) : lockInv s := by
  induction tr generalizing s0 with
  | nil =>
    simp only [exec, Option.some.injEq] at h
    exact h ▸ hinv
  | cons e es ih =>
    cases hs : step s0 e with
    | none => simp [exec, hs] at h
    | some s1 =>
      simp only [exec, hs] at h
      exact ih s1 h (lockInv_step s0 e s1 hs hinv)

lemma trackerKeys_mono_op (disk : Option (List LedgerEntry)) (op : TrackerOp) :
    trackerKeys disk ⊆ trackerKeys (applyTrackerOp disk op) := by
  cases op with
  | initTracker =>
    cases disk <;>
      simp [trackerKeys, applyTrackerOp, ensureUploadTracker, loadUploadTracker]
  | checkCompleted today slot =>
    simp [applyTrackerOp, isUploadCompletedToday]
  | markCompleted today slot =>
    intro k hk
    have hcompute : applyTrackerOp disk (TrackerOp.markCompleted today slot)
        = some (⟨uploadKey today slot, today⟩ ::
            (loadUploadTracker disk).filter
              (fun e => decide (e.key ≠ uploadKey today slot))) := rfl
    rw [hcompute]
    simp only [trackerKeys, loadUploadTracker, Option.getD_some, List.map_cons]
    simp only [trackerKeys] at hk
    obtain ⟨e, he, hkey⟩ := List.mem_map.mp hk
    by_cases hek : e.key = uploadKey today slot
    · rw [← hkey, hek]
      exact List.mem_cons_self _ _
    · refine List.mem_cons_of_mem _ (List.mem_map.mpr ⟨e, ?_, hkey⟩)
      exact List.mem_filter.mpr ⟨he, by simp [hek]⟩

/-- Marking one slot completed does not change the completion check of a
different slot on the same date. -/
lemma check_unchanged_mark_other (disk : Option (List LedgerEntry)) (today : Int)
    (s1 s2 : String) (hne : s1 ≠ s2) :
    (isUploadCompletedToday (markUploadCompleted disk today s2) today s1).1 =
    (isUploadCompletedToday disk today s1).1 := by
  have hk : uploadKey today s1 ≠ uploadKey today s2 := by
    intro hx
    injection hx with hd hs
    exact hne hs
  have hmark : markUploadCompleted disk today s2
      = some (⟨uploadKey today s2, today⟩ ::
          (loadUploadTracker disk).filter
            (fun e => decide (e.key ≠ uploadKey today s2))) := rfl
  rw [hmark]
  simp only [isUploadCompletedToday, loadUploadTracker, Option.getD_some,
    cleanupOldEntries]
  apply decide_eq_decide.mpr
  simp only [List.mem_map, List.mem_filter, List.mem_cons, decide_eq_true_eq]
  constructor
  · rintro ⟨e, ⟨he | ⟨hed, hne2⟩, hge⟩, hkey⟩
    · exfalso
      apply hk
      rw [← hkey, he]
    · exact ⟨e, ⟨hed, hge⟩, hkey⟩
  · rintro ⟨e, ⟨hed, hge⟩, hkey⟩
    exact ⟨e, ⟨Or.inr ⟨hed, fun hx => hk (hkey ▸ hx)⟩, hge⟩, hkey⟩

lemma fallbackTitle_mem (randIdx : Nat) :
    fallbackTitle randIdx ∈ fallback_titles.map (fun p => p.1 ++ "\n" ++ p.2) := by
  have h5 : randIdx % fallback_titles.length < fallback_titles.length :=
    Nat.mod_lt _ (by decide)
  have hgd : fallback_titles.getD (randIdx % fallback_titles.length)
      ("Success Habits!", "Be the one ✅")
      = fallback_titles[randIdx % fallback_titles.length] := by
    simp [List.getD_eq_getElem?_getD, List.getElem?_eq_getElem h5]
  simp only [fallbackTitle, hgd]
  exact List.mem_map_of_mem _ (List.getElem_mem h5)

lemma twoLine_of_mem_fallback (s : String)
    (h : s ∈ fallback_titles.map (fun p => p.1 ++ "\n" ++ p.2)) : TwoLineTitle s := by
  simp only [fallback_titles, List.map_cons, List.map_nil, List.mem_cons,
    List.not_mem_nil, or_false] at h
  rcases h with h | h | h | h | h
  · exact ⟨"Success Habits!", "Be the one ✅", h, by decide, by decide⟩
  · exact ⟨"Achieve More!", "Be the one ✅", h, by decide, by decide⟩
  · exact ⟨"Win Today!", "Achieve ✅", h, by decide, by decide⟩
  · exact ⟨"Success Mindset!", "Be the one ✅", h, by decide, by decide⟩
  · exact ⟨"Level Up!", "Achieve ✅", h, by decide, by decide⟩

/-! ## Claim theorems -/

/-- C7: pruning with the 7-day retention window keeps an entry of the
tracker exactly when its date is not strictly older than `today - 7` —
so an entry dated 9 days ago is removed while one dated 3 days ago
remains — and pruning is idempotent and order-independent across calls. -/
theorem cleanup_prunes_exactly_old (today : Int) (l : List LedgerEntry)
    (e : LedgerEntry) :
    (e ∈ cleanupOldEntries today l ↔ e ∈ l ∧ ¬ (e.timestamp < today - 7))
      ∧ cleanupOldEntries today (cleanupOldEntries today l) = cleanupOldEntries today l
      ∧ ∀ d2 : Int, cleanupOldEntries d2 (cleanupOldEntries today l)
          = cleanupOldEntries today (cleanupOldEntries d2 l) := by
  refine ⟨?_, ?_, ?_⟩
  · simp only [cleanupOldEntries, List.mem_filter, decide_eq_true_eq, Int.not_lt]
  · simp only [cleanupOldEntries, List.filter_filter]
    apply List.filter_congr
    intro x hx
    simp
  · intro d2
    simp only [cleanupOldEntries, List.filter_filter]
    apply List.filter_congr
    intro x hx
    simp [Bool.and_comm]

/-- C9: every slot of the configured `upload_times` list misses the
slot-specific description dictionary (whose keys are 07:00, 12:00 and
19:30), so `create_video_description` returns the generic fallback
description for all of them. -/
theorem configured_slots_generic_description (t : String)
    (h : t ∈ upload_times) :
    descriptions.lookup t = none
      ∧ create_video_description t = genericDescription := by
  fin_cases h <;> exact ⟨rfl, rfl⟩

theorem configured_slots_generic_description_witness :
    "07:30" ∈ upload_times
      ∧ descriptions.lookup "07:30" = none
      ∧ create_video_description "07:30" = genericDescription := by
  refine ⟨by decide, ?_, ?_⟩
  · exact (configured_slots_generic_description "07:30" (by decide)).1
  · exact (configured_slots_generic_description "07:30" (by decide)).2

/-- C10: the completion check leaves the durable tracker file untouched
(the pruning it performs lives only on the discarded in-memory copy), and
across any sequence of the tracker-file operations of `scheduler.py`
(initialization, completion checks, completion marks) the key set of the
durable `completed_uploads` store only grows. -/
theorem tracker_file_keys_monotone (ops : List TrackerOp)
    (disk : Option (List LedgerEntry)) :
    (∀ (today : Int) (slot : String),
        (isUploadCompletedToday disk today slot).2 = disk)
      ∧ trackerKeys disk ⊆ trackerKeys (applyTrackerOps disk ops) := by
  constructor
  · intro today slot
    rfl
  · induction ops generalizing disk with
    | nil => simp [applyTrackerOps]
    | cons op rest ih =>
      intro k hk
      have hstep := trackerKeys_mono_op disk op hk
      have hrest := ih (applyTrackerOp disk op) hstep
      simpa [applyTrackerOps] using hrest

/-- C4 counterexample: `_save_upload_tracker` interrupted right after its
first file operation (the in-place `open(..., "w")` truncate) leaves the
durable store unreadable, and the previously completed entry is gone from
the loaded tracker — the claimed write-to-temporary-then-atomic-replace
protocol would have preserved it. -/
theorem save_interrupted_loses_entry_cex :
    (⟨⟨0, "09:00"⟩, 0⟩ : LedgerEntry) ∈ loadUploadTracker (some [⟨⟨0, "09:00"⟩, 0⟩])
      ∧ applyFileOps (some [⟨⟨0, "09:00"⟩, 0⟩])
          ((saveUploadTrackerOps [⟨⟨0, "09:00"⟩, 0⟩, ⟨⟨0, "12:29"⟩, 0⟩]).take 1) = none
      ∧ (⟨⟨0, "09:00"⟩, 0⟩ : LedgerEntry) ∉ loadUploadTracker
          (applyFileOps (some [⟨⟨0, "09:00"⟩, 0⟩])
            ((saveUploadTrackerOps [⟨⟨0, "09:00"⟩, 0⟩, ⟨⟨0, "12:29"⟩, 0⟩]).take 1)) := by
  decide

/-- C4 amended: `_save_upload_tracker` writes the durable tracker file in
place — its first operation truncates the durable store itself, with no
temporary location and no atomic replace — and an uninterrupted save
replaces the store with exactly the given data. -/
theorem save_writes_durable_file_in_place (disk : Option (List LedgerEntry))
    (data : List LedgerEntry) :
    applyFileOps disk (saveUploadTrackerOps data) = some data
      ∧ (saveUploadTrackerOps data).headD (FileOp.writeTracker data)
          = FileOp.truncateTracker :=
  ⟨rfl, rfl⟩

/-- C6: `create_video_title` is total over every behaviour of the external
completion call: it always returns a title made of two non-empty lines,
and whenever the call fails it returns one of the static fallback titles. -/
theorem title_generation_total_two_lines (upload_time : String) (ai : AIOutcome)
    (randIdx : Nat) :
    TwoLineTitle (create_video_title upload_time ai randIdx)
      ∧ ∀ msg : String, create_video_title upload_time (AIOutcome.failed msg) randIdx
          ∈ fallback_titles.map (fun p => p.1 ++ "\n" ++ p.2) := by
  constructor
  · cases ai with
    | failed msg => exact twoLine_of_mem_fallback _ (fallbackTitle_mem randIdx)
    | ok text =>
      simp only [create_video_title]
      split
      · split
        · rename_i hlen hpos
          exact ⟨cleanTitleLine ((text.trim.splitOn "\n").getD 0 ""),
            cleanTitleLine ((text.trim.splitOn "\n").getD 1 ""), rfl,
            string_ne_empty_of_pos _ hpos.1, string_ne_empty_of_pos _ hpos.2⟩
        · exact twoLine_of_mem_fallback _ (fallbackTitle_mem randIdx)
      · exact twoLine_of_mem_fallback _ (fallbackTitle_mem randIdx)
  · intro msg
    exact fallbackTitle_mem randIdx

lemma sweep_filter_congr (nowMin : Nat) (today : Int) (t : String)
    (rest : List String) (disk : Option (List LedgerEntry))
    (hnotmem : t ∉ rest) :
    rest.filter (fun s =>
        decide (slotMinutes s < nowMin ∧ nowMin ≤ slotMinutes s + 30)
          && !(isUploadCompletedToday (markUploadCompleted disk today t) today s).1)
      = rest.filter (fun s =>
        decide (slotMinutes s < nowMin ∧ nowMin ≤ slotMinutes s + 30)
          && !(isUploadCompletedToday disk today s).1) := by
  apply List.filter_congr
  intro s hs
  have hst : s ≠ t := fun hx => hnotmem (hx ▸ hs)
  rw [check_unchanged_mark_other disk today s t hst]

/-- C5 counterexample: with the single slot 09:00 and the clock at
09:00:30 on an empty ledger, the startup sweep of
`_check_missed_schedules` dispatches nothing — the strict comparison
`upload_minutes < current_minutes` on minute-truncated times excludes a
slot due at the current minute, although the claim says it runs once. -/
theorem missed_sweep_boundary_cex :
    (checkMissedSchedules 9 0 30 0 ["09:00"] (fun _ => true) (some [])).1 = []
      ∧ ¬ ((checkMissedSchedules 9 0 30 0 ["09:00"] (fun _ => true) (some [])).1
            = ["09:00"]) := by
  decide

/-- C5 amended: the startup sweep runs the pipeline exactly for the
distinct configured slots whose due minute is strictly before the current
minute and at most 30 minutes before it (seconds are discarded), and that
are not completed in the ledger; a slot due at the current minute does not
trigger. -/
theorem missed_sweep_runs_iff (nowHour nowMinute nowSecond : Nat) (today : Int)
    (slots : List String) (outcome : String → Bool)
    (disk : Option (List LedgerEntry)) (hnd : slots.Nodup) :
    (checkMissedSchedules nowHour nowMinute nowSecond today slots outcome disk).1 =
      slots.filter (fun t =>
        decide (slotMinutes t < nowHour * 60 + nowMinute
            ∧ nowHour * 60 + nowMinute ≤ slotMinutes t + 30)
          && !(isUploadCompletedToday disk today t).1) := by
  unfold checkMissedSchedules
  revert hnd
  induction slots generalizing disk with
  | nil =>
    intro hnd
    simp [missedSweepGo]
  | cons t rest ih =>
    intro hnd
    obtain ⟨hnotmem, hndr⟩ := List.nodup_cons.mp hnd
    by_cases hw : slotMinutes t < nowHour * 60 + nowMinute
        ∧ nowHour * 60 + nowMinute ≤ slotMinutes t + 30
    · by_cases hc : (isUploadCompletedToday disk today t).1 = true
      · simp only [missedSweepGo, if_pos hw, dispatchOnce, if_pos hc]
        rw [List.filter_cons]
        rw [ih disk hndr]
        simp [hw, hc]
      · by_cases ho : outcome t = true
        · simp only [missedSweepGo, if_pos hw, dispatchOnce, if_neg hc, if_pos ho]
          rw [List.filter_cons]
          rw [ih (markUploadCompleted disk today t) hndr]
          rw [sweep_filter_congr _ _ _ _ _ hnotmem]
          simp [hw, hc]
        · simp only [missedSweepGo, if_pos hw, dispatchOnce, if_neg hc, if_neg ho]
          rw [List.filter_cons]
          rw [ih disk hndr]
          simp [hw, hc]
    · simp only [missedSweepGo, if_neg hw]
      rw [List.filter_cons]
      rw [ih disk hndr]
      simp [hw]

theorem missed_sweep_runs_iff_witness :
    (["09:00"] : List String).Nodup
      ∧ (checkMissedSchedules 9 1 0 0 ["09:00"] (fun _ => true) (some [])).1 =
          (["09:00"] : List String).filter (fun t =>
            decide (slotMinutes t < 9 * 60 + 1 ∧ 9 * 60 + 1 ≤ slotMinutes t + 30)
              && !(isUploadCompletedToday (some []) 0 t).1) :=
  ⟨by decide, missed_sweep_runs_iff 9 1 0 0 ["09:00"] (fun _ => true) (some []) (by decide)⟩

/-- The interleaving in which two dispatch attempts for the same run key
both pass the ledger check before either takes the lock, then run one
after the other. -/
def raceTrace : List Event :=
  [Event.checkLedger 0, Event.checkLedger 1, Event.tryAcquire 0,
   Event.runPipeline 0, Event.tryAcquire 1, Event.runPipeline 1]

/-- C1: because `generate_and_upload_video` performs the ledger check
before acquiring the lock, two overlapping dispatch attempts for the same
run key can both pass the check and then complete one after the other:
the execution produces two audit rows with status `success` for the run
key (date 0, slot 09:00), and the ledger holds the key after two
successes — contradicting the claimed at-most-one-success invariant and
its ledger iff. -/
theorem overlapping_dispatches_double_success :
    (exec (initState 0 (some []) [("09:00", PipelineOutcome.success), ("09:00", PipelineOutcome.success)]) raceTrace).map
        (fun s => (successCount s.records ⟨0, "09:00"⟩,
          decide ((⟨0, "09:00"⟩ : RunKey) ∈ trackerKeys s.tracker)))
      = some (2, true) := by
  decide

/-- C2 counterexample: a dispatch that finds its run key already completed
in the ledger returns from `generate_and_upload_video` before
`_perform_upload`, so it terminates having written zero audit rows — not
the one skipped-status record the claim requires. -/
theorem ledger_skip_writes_no_audit_record_cex :
    (exec (initState 0 (some [⟨⟨0, "09:00"⟩, 0⟩]) [("09:00", PipelineOutcome.success)])
          [Event.checkLedger 0]).map
        (fun s => (s.records.length, (s.threads.getD 0 defaultThread).phase))
      = some (0, Phase.finished)
      ∧ ¬ ((exec (initState 0 (some [⟨⟨0, "09:00"⟩, 0⟩]) [("09:00", PipelineOutcome.success)])
              [Event.checkLedger 0]).map (fun s => s.records.length)
            = some 1) := by
  decide

/-- C2 amended: dispatches that return at the ledger check or at the busy
lock write no audit row; a dispatch that enters `_perform_upload` writes
one row (success or failed) — except the missing-artifact early returns
at scheduler.py:345-360, which write the row at the return and the
`finally` at lines 427-429 writes it a second time, two identical failed
rows.  Audit rows therefore count pipeline entries weighted by outcome,
not dispatch attempts; and no row with status skipped is ever written. -/
theorem audit_records_match_pipeline_entries (s0 : SchedState) (tr : List Event)
    (s : SchedState) (h : exec s0 tr = some s) :
    s.records.length
        = s0.records.length + (tr.map (dispatchRowCount s0.threads)).sum
      ∧ ((∀ r ∈ s0.records, r.status ≠ UploadStatus.skipped) →
          ∀ r ∈ s.records, r.status ≠ UploadStatus.skipped) := by
  induction tr generalizing s0 with
  | nil =>
    simp only [exec, Option.some.injEq] at h
    rw [← h]
    exact ⟨by simp, fun h0 => h0⟩
  | cons e es ih =>
    cases hs : step s0 e with
    | none => simp [exec, hs] at h
    | some s1 =>
      simp only [exec, hs] at h
      obtain ⟨hlen, hL, hstat, hnew⟩ := step_records_and_static s0 e s1 hs
      obtain ⟨ih1, ih2⟩ := ih s1 h
      constructor
      · have hmap : es.map (dispatchRowCount s1.threads)
            = es.map (dispatchRowCount s0.threads) := by
          apply List.map_congr_left
          intro e2 _
          cases e2 with
          | checkLedger tid2 => rfl
          | tryAcquire tid2 => rfl
          | runPipeline tid2 =>
            simp only [dispatchRowCount]
            have hpair := hstat tid2
            injection hpair with hsl hout
            rw [hout]
        rw [ih1, hmap, hlen, List.map_cons, List.sum_cons]
        omega
      · intro h0
        exact ih2 (fun r hr => (hnew r hr).elim (fun hin => h0 r hin) id)

def auditWitInit : SchedState :=
  initState 0 (some []) [("09:00", PipelineOutcome.missingArtifact)]

def auditWitTrace : List Event :=
  [Event.checkLedger 0, Event.tryAcquire 0, Event.runPipeline 0]

theorem audit_records_match_pipeline_entries_witness :
    (auditWitTrace.map (dispatchRowCount auditWitInit.threads)).sum = 2
      ∧ (exec auditWitInit auditWitTrace).map (fun s => s.records.length)
        = some (auditWitInit.records.length
            + (auditWitTrace.map (dispatchRowCount auditWitInit.threads)).sum) := by
  refine ⟨by decide, ?_⟩
  cases hE : exec auditWitInit auditWitTrace with
  | none => exact absurd hE (by decide)
  | some s =>
    have hrec :=
      (audit_records_match_pipeline_entries auditWitInit auditWitTrace s hE).1
    simp only [Option.map_some']
    rw [hrec]

/-- C3 counterexample: in the initial state no dispatch holds the guard,
yet the ledger completion check of thread 0 is enabled and executes
without changing the lock — the check happens before (outside) the guard
acquisition, not after it as claimed. -/
theorem ledger_check_outside_guard_cex :
    (initState 0 (some []) [("09:00", PipelineOutcome.success)]).lockHolder = none
      ∧ (step (initState 0 (some []) [("09:00", PipelineOutcome.success)]) (Event.checkLedger 0)).isSome = true
      ∧ (step (initState 0 (some []) [("09:00", PipelineOutcome.success)]) (Event.checkLedger 0)).map
          SchedState.lockHolder = some none := by
  decide

/-- C3 amended: the ledger completion check of a dispatch runs before (and
outside) the guard acquisition, while the pipeline step containing the
ledger completion mark executes only while that dispatch holds the guard
and releases the guard when it finishes; check and mark are therefore not
under one guard acquisition, and two completions for the same run key can
interleave. -/
theorem mark_under_guard_released_after (s : SchedState) (tid : Nat)
    (h : (step s (Event.runPipeline tid)).isSome = true) :
    s.lockHolder = some tid
      ∧ (step s (Event.runPipeline tid)).map SchedState.lockHolder = some none := by
  cases hg : s.threads[tid]? with
  | none => simp [step, hg] at h
  | some t =>
    by_cases hc : t.phase = Phase.running ∧ s.lockHolder = some tid
    · refine ⟨hc.2, ?_⟩
      cases hsu : t.outcome <;> simp [step, hg, hc, hsu, setThread]
    · simp [step, hg, hc] at h

def markWitState : SchedState :=
  { today := 0, tracker := some [], lockHolder := some 0, records := [],
    threads := [⟨"09:00", PipelineOutcome.success, Phase.running⟩] }

theorem mark_under_guard_released_after_witness :
    markWitState.lockHolder = some 0
      ∧ (step markWitState (Event.runPipeline 0)).map SchedState.lockHolder = some none :=
  mark_under_guard_released_after markWitState 0 (by decide)

/-- C8: in every state reachable by interleaved dispatches, at most one
dispatch is inside the protected section; once no dispatch is inside it
the lock is free (the `finally` release fires on success and on failure
alike, so the lock never leaks); and while the lock is held, a second
dispatch running `acquire(blocking=False)` returns immediately — it ends
`finished`, appends no audit row, and leaves the holder unchanged. -/
theorem guard_mutual_exclusion_and_release (today : Int)
    (tracker : Option (List LedgerEntry)) (specs : List (String × PipelineOutcome))
    (tr : List Event) (s : SchedState)
    (h : exec (initState today tracker specs) tr = some s) :
    (∀ i, i < s.threads.length → ∀ j, j < s.threads.length →
        (s.threads.getD i defaultThread).phase = Phase.running →
        (s.threads.getD j defaultThread).phase = Phase.running → i = j)
      ∧ ((∀ i, i < s.threads.length →
            (s.threads.getD i defaultThread).phase ≠ Phase.running) →
          s.lockHolder = none)
      ∧ (∀ tid j, tid < s.threads.length → s.lockHolder = some j →
          (s.threads.getD tid defaultThread).phase = Phase.toAcquire →
          (step s (Event.tryAcquire tid)).map
              (fun s2 => ((s2.threads.getD tid defaultThread).phase,
                s2.records.length, s2.lockHolder))
            = some (Phase.finished, s.records.length, some j)) := by
  obtain ⟨hrange, hiff⟩ :=
    lockInv_exec (initState today tracker specs) tr s h
      (lockInv_init today tracker specs)
  refine ⟨?_, ?_, ?_⟩
  · intro i hi j hj hri hrj
    have h1 := (hiff i hi).mp hri
    have h2 := (hiff j hj).mp hrj
    rw [h1] at h2
    injection h2
  · intro hall
    cases hl : s.lockHolder with
    | none => rfl
    | some i =>
      have hi := hrange i hl
      exact absurd ((hiff i hi).mpr hl) (hall i hi)
  · intro tid j htid hl hph
    have hg : s.threads[tid]? = some (s.threads.getD tid defaultThread) :=
      getElem?_of_getD s.threads tid htid
    generalize hT : s.threads.getD tid defaultThread = t at hg hph
    have hstep : step s (Event.tryAcquire tid)
        = some (setThread s tid { t with phase := Phase.finished }) := by
      simp [step, hg, hph, hl]
    have h1 : ((setThread s tid { t with phase := Phase.finished }).threads.getD
        tid defaultThread).phase = Phase.finished := by
      simp only [setThread]
      rw [getD_set_self _ _ _ htid]
    have h2 : (setThread s tid { t with phase := Phase.finished }).records
        = s.records := rfl
    have h3 : (setThread s tid { t with phase := Phase.finished }).lockHolder
        = s.lockHolder := rfl
    rw [hstep, Option.map_some', h1, h2, h3, hl]

def guardWitState : SchedState :=
  { today := 0, tracker := some [], lockHolder := some 0, records := [],
    threads := [⟨"09:00", PipelineOutcome.success, Phase.running⟩, ⟨"09:00", PipelineOutcome.failure, Phase.ready⟩] }

theorem guard_mutual_exclusion_and_release_witness :
    (∀ i, i < guardWitState.threads.length → ∀ j, j < guardWitState.threads.length →
        (guardWitState.threads.getD i defaultThread).phase = Phase.running →
        (guardWitState.threads.getD j defaultThread).phase = Phase.running → i = j)
      ∧ ((∀ i, i < guardWitState.threads.length →
            (guardWitState.threads.getD i defaultThread).phase ≠ Phase.running) →
          guardWitState.lockHolder = none)
      ∧ (∀ tid j, tid < guardWitState.threads.length →
          guardWitState.lockHolder = some j →
          (guardWitState.threads.getD tid defaultThread).phase = Phase.toAcquire →
          (step guardWitState (Event.tryAcquire tid)).map
              (fun s2 => ((s2.threads.getD tid defaultThread).phase,
                s2.records.length, s2.lockHolder))
            = some (Phase.finished, guardWitState.records.length, some j)) :=
  guard_mutual_exclusion_and_release 0 (some [])
    [("09:00", PipelineOutcome.success), ("09:00", PipelineOutcome.failure)]
    [Event.checkLedger 0, Event.tryAcquire 0] guardWitState (by decide)

end CronWorker
